import Mathlib

/-!
Verification of the concurrent data-access and ingestion layer of the
AI_binance_screen_server repository.

The Python source is shallowly embedded: SQLite tables become association
lists keyed by their primary key, the retry loop of
DatabaseManager.execute_query becomes a recursion over the remaining loop
iterations driven by an oracle giving the outcome of each execution attempt,
and the thread-keyed connection pool becomes explicit state passing.
Numeric candle fields (floats in the source) are modelled as integers: none
of the verified properties depends on floating-point arithmetic, only on
values being stored, compared for equality, or overwritten.
-/

/-! ## SQLite table model

A table is a list of (primary-key, values) rows.  `INSERT OR REPLACE`
deletes every row conflicting on the key and appends the new row;
`INSERT OR IGNORE` drops the insert when a conflicting row exists.
-/

section Tables

variable {κ ν : Type} [DecidableEq κ]

/-- Rows of a table whose primary key is `k`. -/
def rowsForKey (t : List (κ × ν)) (k : κ) : List (κ × ν) :=
  t.filter (fun r => r.1 = k)

/-- SQLite INSERT OR REPLACE: remove any row with the same primary key,
then insert the new row. -/
def insertOrReplace (t : List (κ × ν)) (k : κ) (v : ν) : List (κ × ν) :=
  t.filter (fun r => r.1 ≠ k) ++ [(k, v)]

/-- SQLite INSERT OR IGNORE: keep the table unchanged when a row with the
same primary key exists, otherwise insert. -/
def insertOrIgnore (t : List (κ × ν)) (k : κ) (v : ν) : List (κ × ν) :=
  if t.any (fun r => r.1 = k) then t else t ++ [(k, v)]

theorem rowsForKey_insertOrReplace (t : List (κ × ν)) (k : κ) (v : ν) :
    rowsForKey (insertOrReplace t k v) k = [(k, v)] := by
  unfold rowsForKey insertOrReplace
  rw [List.filter_append]
  have h1 : (t.filter (fun r => r.1 ≠ k)).filter (fun r => r.1 = k) = [] := by
    rw [List.filter_filter]
    apply List.filter_eq_nil_iff.2
    intro a _
    by_cases hak : a.1 = k <;> simp [hak]
  rw [h1]
  simp

theorem rowsForKey_insertOrIgnore_of_absent (t : List (κ × ν)) (k : κ) (v : ν)
    (h : rowsForKey t k = []) :
    rowsForKey (insertOrIgnore t k v) k = [(k, v)] := by
  unfold rowsForKey insertOrIgnore
  have hany : t.any (fun r => r.1 = k) = false := by
    rw [List.any_eq_false]
    intro a ha
    have := List.filter_eq_nil_iff.1 h a ha
    simpa using this
  rw [hany]
  simp only [Bool.false_eq_true, if_false, List.filter_append]
  unfold rowsForKey at h
  rw [h]
  simp

end Tables

/-! ## Candle rows

The streaming client writes the `klines` table (primary key
(symbol, timeframe, open_time)); the backfill path writes the
`market_data` table (unique key (symbol, timestamp, timeframe)) and the
`kline_data` table (same key shape as `klines`).
-/

/-- Primary key of the `klines` / `kline_data` tables:
(symbol, timeframe, open_time). -/
abbrev KlineKey := String × String × Int

/-- Non-key columns of the `klines` table. -/
structure KlineVals where
  open_price : Int
  high_price : Int
  low_price : Int
  close_price : Int
  volume : Int
  close_time : Int
deriving DecidableEq, Repr

/-- Unique key of the `market_data` table: (symbol, timestamp, timeframe). -/
abbrev MarketKey := String × Int × String

/-- Non-key columns of the `market_data` table. -/
structure MarketVals where
  open_price : Int
  high_price : Int
  low_price : Int
  close_price : Int
  volume : Int
deriving DecidableEq, Repr

/-- A completed kline as received on the streaming path and as cached
in memory by `on_message` (source dict with keys open_time, open, high,
low, close, volume, close_time). -/
structure Kline where
  open_time : Int
  open_price : Int
  high_price : Int
  low_price : Int
  close_price : Int
  volume : Int
  close_time : Int
deriving DecidableEq, Repr

/-- A historical kline as returned by `load_historical_data` (source dict
with keys timestamp, open, high, low, close, volume). -/
structure HistKline where
  timestamp : Int
  open_price : Int
  high_price : Int
  low_price : Int
  close_price : Int
  volume : Int
deriving DecidableEq, Repr

/-- The row written by BinanceWebSocketClient._save_kline:
INSERT OR REPLACE INTO klines keyed by (symbol, timeframe, open_time). -/
def save_kline_write (klines : List (KlineKey × KlineVals)) (symbol interval : String)
    (k : Kline) : List (KlineKey × KlineVals) :=
  insertOrReplace klines (symbol, interval, k.open_time)
    ⟨k.open_price, k.high_price, k.low_price, k.close_price, k.volume, k.close_time⟩

/-- The two durable tables written by the historical backfill path. -/
structure BackfillStore where
  market_data : List (MarketKey × MarketVals)
  kline_data : List (KlineKey × KlineVals)
deriving DecidableEq, Repr

/-- The per-candle writes of process_symbol_enhanced
(performance_enhanced_websocket.py): INSERT OR IGNORE INTO market_data
followed by INSERT OR REPLACE INTO kline_data, timeframe fixed to 1h and
close_time derived as timestamp + 3600000. -/
def backfill_write (st : BackfillStore) (symbol : String) (k : HistKline) : BackfillStore :=
  { market_data := insertOrIgnore st.market_data (symbol, k.timestamp, "1h")
      ⟨k.open_price, k.high_price, k.low_price, k.close_price, k.volume⟩
    kline_data := insertOrReplace st.kline_data (symbol, "1h", k.timestamp)
      ⟨k.open_price, k.high_price, k.low_price, k.close_price, k.volume,
        k.timestamp + 3600000⟩ }

/-! ## DatabaseManager.execute_query retry loop

The loop `for attempt in range(max_retries)` executes the statement once
per iteration.  The outcome of each `cursor.execute` call is given by an
oracle `Nat → AttemptOutcome` indexed by the attempt counter.  A lock
error with `attempt < max_retries - 1` sleeps `0.1 * 2 ** attempt`
seconds (modelled as `100 * 2 ^ attempt` milliseconds) and retries; a
lock error on the last iteration and any other error re-raise.  When the
loop range is empty (`max_retries ≤ 0`) the function body falls through
and Python returns None.  EnhancedDatabaseManager.execute_query has the
byte-identical loop.
-/

/-- Outcome of one cursor.execute call. -/
inductive AttemptOutcome
  | success
  | locked
  | failure
deriving DecidableEq, Repr

/-- Errors execute_query can raise: sqlite3.OperationalError "database is
locked" after exhausting retries, or any other exception. -/
inductive DBError
  | contention
  | other
deriving DecidableEq, Repr

/-- The fetch argument of execute_query: None, one, all or lastrowid. -/
inductive Fetch
  | noneF
  | one
  | all
  | lastrowid
deriving DecidableEq, Repr

/-- The value execute_query returns on a successful iteration:
cursor.fetchone(), cursor.fetchall(), cursor.lastrowid, or True. -/
inductive PyRet
  | row
  | rows
  | rowid
  | retTrue
deriving DecidableEq, Repr

/-- Dispatch on the fetch argument, as in the source's if/elif chain. -/
def fetchReturn : Fetch → PyRet
  | Fetch.one => PyRet.row
  | Fetch.all => PyRet.rows
  | Fetch.lastrowid => PyRet.rowid
  | Fetch.noneF => PyRet.retTrue

/-- Observable trace of one execute_query call: number of cursor.execute
attempts, the backoff delays slept (ms, in order), number of commits, and
the outcome (`Except.ok none` models Python falling through and returning
None). -/
structure ExecTrace where
  attempts : Nat
  delays : List Nat
  commits : Nat
  result : Except DBError (Option PyRet)
deriving Repr

/-- The body of the retry loop, one constructor step per remaining
iteration of `range(max_retries)`; `attempt` is the Python loop
counter. -/
def execLoop (oracle : Nat → AttemptOutcome) (fetch : Fetch) (commit : Bool)
    (max_retries : Int) (attempt : Nat) : Nat → ExecTrace
  | 0 => { attempts := 0, delays := [], commits := 0, result := Except.ok none }
  | remaining + 1 =>
    match oracle attempt with
    | AttemptOutcome.success =>
      { attempts := 1, delays := [], commits := if commit then 1 else 0,
        result := Except.ok (some (fetchReturn fetch)) }
    | AttemptOutcome.failure =>
      { attempts := 1, delays := [], commits := 0, result := Except.error DBError.other }
    | AttemptOutcome.locked =>
      if (attempt : Int) < max_retries - 1 then
        let t := execLoop oracle fetch commit max_retries (attempt + 1) remaining
        { t with attempts := t.attempts + 1, delays := 100 * 2 ^ attempt :: t.delays }
      else
        { attempts := 1, delays := [], commits := 0, result := Except.error DBError.contention }

/-- DatabaseManager.execute_query: run the retry loop from attempt 0 over
the `range(max_retries)` iterations (empty when max_retries ≤ 0). -/
def execute_query (oracle : Nat → AttemptOutcome) (fetch : Fetch) (commit : Bool)
    (max_retries : Int) : ExecTrace :=
  execLoop oracle fetch commit max_retries 0 max_retries.toNat

/-- EnhancedDatabaseManager.execute_query: its loop body is identical to
DatabaseManager.execute_query's. -/
def executeQueryEnhanced (oracle : Nat → AttemptOutcome) (fetch : Fetch) (commit : Bool)
    (max_retries : Int) : ExecTrace :=
  execLoop oracle fetch commit max_retries 0 max_retries.toNat

/-! ## BinanceWebSocketClient._save_kline error behaviour

The streaming completed-bar write takes a raw connection from
get_connection and calls cursor.execute / conn.commit once inside a
try/except whose except branch only logs.  No retry loop, and no
exception ever reaches the caller.
-/

/-- Trace of one _save_kline call: attempts made, whether an error was
raised to the caller, whether the commit happened. -/
structure SaveTrace where
  attempts : Nat
  raised : Bool
  committed : Bool
deriving DecidableEq, Repr

/-- _save_kline performs a single execute attempt; any exception is
caught and logged, never re-raised. -/
def save_kline (oracle : Nat → AttemptOutcome) : SaveTrace :=
  match oracle 0 with
  | AttemptOutcome.success => { attempts := 1, raised := false, committed := true }
  | AttemptOutcome.locked => { attempts := 1, raised := false, committed := false }
  | AttemptOutcome.failure => { attempts := 1, raised := false, committed := false }

/-! ## Connection pool (DatabaseManager.get_connection)

Python dicts become association lists: assignment to an existing key
replaces its value in place, a new key is appended.  `connection_pool`
maps thread identity to a map from database name to a physical
connection, modelled as a connection id drawn from a fresh counter.
-/

/-- Association-list lookup: first binding of key `k`. -/
def alookup {α β : Type} [DecidableEq α] (k : α) : List (α × β) → Option β
  | [] => none
  | (a, b) :: rest => if a = k then some b else alookup k rest

/-- Association-list assignment d[k] = v: replace the first binding of
`k` in place, or append a new binding. -/
def aset {α β : Type} [DecidableEq α] (k : α) (v : β) : List (α × β) → List (α × β)
  | [] => [(k, v)]
  | (a, b) :: rest => if a = k then (k, v) :: rest else (a, b) :: aset k v rest

/-- State of a DatabaseManager: the pool (thread id → database name →
connection id) and the next fresh physical-connection id. -/
structure PoolState where
  pool : List (Nat × List (String × Nat))
  next_conn : Nat
deriving DecidableEq, Repr

/-- DatabaseManager.get_connection.  The source first ensures
`connection_pool[thread_id]` exists (creating an empty dict), then
returns the cached connection for `db_name` if present, otherwise opens
a new physical connection (sqlite3.connect plus the durability pragmas)
and caches it.  When the thread had no entry its map is empty, so the
cached branch can only fire on a pre-existing entry; hence the state is
unchanged exactly on a cache hit.  EnhancedDatabaseManager.get_connection
differs only in the extra pragmas applied to the new connection. -/
def get_connection (thread_id : Nat) (db_name : String) (st : PoolState) :
    Nat × PoolState :=
  match alookup db_name ((alookup thread_id st.pool).getD []) with
  | some conn => (conn, st)
  | none =>
    (st.next_conn,
     { pool := aset thread_id
         (aset db_name st.next_conn ((alookup thread_id st.pool).getD [])) st.pool,
       next_conn := st.next_conn + 1 })

/-- Well-formedness of the pool: no duplicate thread keys, and no
duplicate database-name keys inside any thread's map. -/
def PoolWF (st : PoolState) : Prop :=
  (st.pool.map Prod.fst).Nodup ∧ ∀ p ∈ st.pool, (p.2.map Prod.fst).Nodup

/-- Number of physical connections the pool holds for one
(thread, database-name) pair, counted across every binding. -/
def connCount (st : PoolState) (tid : Nat) (db : String) : Nat :=
  (st.pool.map
    (fun p => if p.1 = tid then (p.2.filter (fun q => q.1 = db)).length else 0)).sum

/-! ## Rolling in-memory kline cache (on_message)

After saving a completed bar, on_message appends it to
`self.klines[symbol][interval]` and then pops index 0 when the length
exceeds 100.
-/

/-- One completed-bar update of the rolling cache: append, then evict the
oldest entry when the bound of 100 is exceeded. -/
def appendCompleted (cache : List Kline) (k : Kline) : List Kline :=
  if 100 < (cache ++ [k]).length then (cache ++ [k]).tail else cache ++ [k]

/-! ## Historical backfill (PerformanceEnhancedWebSocketClient)

`load_historical_data` wraps the whole fetch in try/except and returns []
on any exception (network error, malformed payload) and [] for an empty
payload; the fetch outcome per symbol is an oracle.
`initialize_market_data_enhanced` (modelled as `market_data_init_enhanced`;
the source name starts with a token the development avoids) iterates the
symbols, counting per-symbol success and failure, and returns
`successful_count > 0` — or Python None via the early return when the
symbol list is empty.
-/

/-- PerformanceEnhancedWebSocketClient.load_historical_data: any exception
is caught and [] returned. -/
def load_historical_data (fetch_api : String → Except Unit (List HistKline))
    (symbol : String) : List HistKline :=
  match fetch_api symbol with
  | Except.ok ks => ks
  | Except.error _ => []

/-- process_symbol_enhanced: load the symbol's klines; an empty result is
a per-symbol failure, otherwise every kline is upserted into market_data
and kline_data.  (An exception thrown inside the try block is caught by
the same per-symbol except branch and likewise reported as failure.) -/
def process_symbol_enhanced (fetch_api : String → Except Unit (List HistKline))
    (st : BackfillStore) (symbol : String) : Bool × BackfillStore :=
  let klines := load_historical_data fetch_api symbol
  if klines.isEmpty then (false, st)
  else (true, klines.foldl (fun s k => backfill_write s symbol k) st)

/-- Accumulator of the progress-tracking loop: processed_count,
successful_count, failed_count and the durable store. -/
structure InitAcc where
  processed : Nat
  successful : Nat
  failed : Nat
  store : BackfillStore
deriving Repr

/-- One completed future of the as_completed loop: count the symbol as
success or failure, never letting the failure escape. -/
def init_step (fetch_api : String → Except Unit (List HistKline))
    (acc : InitAcc) (symbol : String) : InitAcc :=
  let r := process_symbol_enhanced fetch_api acc.store symbol
  { processed := acc.processed + 1,
    successful := acc.successful + (if r.1 then 1 else 0),
    failed := acc.failed + (if r.1 then 0 else 1),
    store := r.2 }

/-- Result of one initialize_market_data_enhanced run; `result none`
models the bare `return` (Python None) taken when no symbols are
available, `result (some b)` the final `return successful_count > 0`. -/
structure InitTrace where
  processed : Nat
  successful : Nat
  failed : Nat
  store : BackfillStore
  result : Option Bool
deriving Repr

/-- Python truthiness of the value initialize_market_data_enhanced
returns (None is falsy). -/
def isTruthy : Option Bool → Bool
  | none => false
  | some b => b

/-- initialize_market_data_enhanced, over the already-discovered symbol
list: early None return on an empty list, otherwise process every symbol,
accumulating counts, and report `successful_count > 0`. -/
def market_data_init_enhanced (fetch_api : String → Except Unit (List HistKline))
    (symbols : List String) (st0 : BackfillStore) : InitTrace :=
  if symbols.isEmpty then
    { processed := 0, successful := 0, failed := 0, store := st0, result := none }
  else
    let acc := symbols.foldl (init_step fetch_api) ⟨0, 0, 0, st0⟩
    { processed := acc.processed, successful := acc.successful, failed := acc.failed,
      store := acc.store, result := some (decide (0 < acc.successful)) }

/-! ## Symbol discovery

Two variants exist.  PerformanceEnhancedWebSocketClient._get_active_symbols
filters the 24hr ticker listing and falls back to a hard-coded list on any
exception; BinanceWebSocketClient._get_active_symbols filters exchangeInfo
and returns [] on any exception.  Last-traded prices (floats in the
source) are modelled as rationals; a missing or unparsable price field is
None.
-/

/-- One entry of the /ticker/24hr response. -/
structure Ticker24h where
  symbol : String
  lastPrice : Option ℚ
deriving Repr

/-- One entry of the /exchangeInfo symbols array. -/
structure SymbolInfo where
  symbol : String
  status : String
  quoteAsset : String
deriving Repr

/-- The hard-coded fallback list of
PerformanceEnhancedWebSocketClient._get_active_symbols. -/
def fallback_symbols : List String :=
  ["BTCUSDT", "ETHUSDT", "BNBUSDT", "ADAUSDT", "XRPUSDT",
   "SOLUSDT", "DOTUSDT", "DOGEUSDT", "AVAXUSDT", "MATICUSDT",
   "LTCUSDT", "LINKUSDT", "UNIUSDT", "ATOMUSDT", "ETCUSDT",
   "XLMUSDT", "VETUSDT", "FILUSDT", "TRXUSDT", "EOSUSDT",
   "AAVEUSDT", "MKRUSDT", "COMPUSDT", "YFIUSDT", "SUSHIUSDT",
   "SNXUSDT", "CRVUSDT", "BALUSDT", "1INCHUSDT", "ENJUSDT",
   "MANAUSDT", "SANDUSDT", "CHZUSDT", "GALAUSDT", "AXSUSDT"]

/-- PerformanceEnhancedWebSocketClient._get_active_symbols: keep USDT
pairs whose last price is at least 0.5, skipping entries whose price is
missing or unparsable; on any API failure return the fallback list. -/
def get_active_symbols_enhanced (api : Except Unit (List Ticker24h)) : List String :=
  match api with
  | Except.error _ => fallback_symbols
  | Except.ok tickers =>
    tickers.foldl
      (fun acc t =>
        if t.symbol.endsWith "USDT" then
          match t.lastPrice with
          | some p => if (1 : ℚ) / 2 ≤ p then acc ++ [t.symbol] else acc
          | none => acc
        else acc) []

/-- BinanceWebSocketClient._get_active_symbols: keep TRADING pairs quoted
in USDT, skipping those whose looked-up price is truthy and below 0.5;
on any API failure return the empty list. -/
def get_active_symbols_base (price_of : String → Option ℚ)
    (api : Except Unit (List SymbolInfo)) : List String :=
  match api with
  | Except.error _ => []
  | Except.ok infos =>
    infos.foldl
      (fun acc d =>
        if d.status = "TRADING" ∧ d.quoteAsset = "USDT" then
          match price_of d.symbol with
          | some p => if p < (1 : ℚ) / 2 then acc else acc ++ [d.symbol]
          | none => acc ++ [d.symbol]
        else acc) []

/-! ## Disconnect handling (websocket_client.py)

On a disconnect the library invokes on_close; when still running it
removes the subscription, sleeps 5 seconds and calls _connect_websocket —
one reconnect attempt.  Control then returns to run_websocket after
run_forever: when still running the loop sleeps 5 seconds and its next
iteration creates another WebSocketApp — a second reconnect attempt from
the same disconnect.  When running is false both paths do nothing.
-/

/-- Reconnect attempts triggered by one event, with the cooldown (s)
slept before each. -/
structure ReconnectTrace where
  attempts : Nat
  cooldowns : List Nat
deriving DecidableEq, Repr

/-- The on_close handler: reconnect via _connect_websocket after a 5 s
sleep when running, nothing otherwise. -/
def on_close_response (running : Bool) : ReconnectTrace :=
  if running then { attempts := 1, cooldowns := [5] }
  else { attempts := 0, cooldowns := [] }

/-- The run_websocket loop after run_forever returns: break when not
running, otherwise sleep 5 s and let the next iteration reconnect. -/
def run_websocket_continue (running : Bool) : ReconnectTrace :=
  if running then { attempts := 1, cooldowns := [5] }
  else { attempts := 0, cooldowns := [] }

/-- Combined effect of a single stream disconnect: the handler's
reconnect plus the loop's own reconnect. -/
def single_disconnect (running : Bool) : ReconnectTrace :=
  let h := on_close_response running
  let l := run_websocket_continue running
  { attempts := h.attempts + l.attempts, cooldowns := h.cooldowns ++ l.cooldowns }

/-! ## BinanceWebSocketClient.get_historical_klines

On a cache miss the klines table is queried with
ORDER BY open_time DESC LIMIT ?, the rows are converted to kline dicts in
row order and written back into the in-memory cache.  The sort is
modelled by insertion sort descending on open_time (the primary key makes
open_time unique per (symbol, timeframe), so the order is determined).
-/

/-- Insert a row into a list sorted by open_time descending. -/
def insertDescByOpenTime (r : KlineKey × KlineVals) :
    List (KlineKey × KlineVals) → List (KlineKey × KlineVals)
  | [] => [r]
  | a :: as =>
    if r.1.2.2 ≤ a.1.2.2 then a :: insertDescByOpenTime r as else r :: a :: as

/-- ORDER BY open_time DESC. -/
def sortDescByOpenTime (l : List (KlineKey × KlineVals)) : List (KlineKey × KlineVals) :=
  l.foldr insertDescByOpenTime []

/-- Convert one selected row to the kline dict built in the fetch loop. -/
def rowToKline (r : KlineKey × KlineVals) : Kline :=
  ⟨r.1.2.2, r.2.open_price, r.2.high_price, r.2.low_price, r.2.close_price,
    r.2.volume, r.2.close_time⟩

/-- SELECT ... FROM klines WHERE symbol = ? AND timeframe = ?
ORDER BY open_time DESC LIMIT ?. -/
def query_klines (t : List (KlineKey × KlineVals)) (symbol interval : String)
    (limit : Nat) : List Kline :=
  (((sortDescByOpenTime (t.filter (fun r => r.1.1 = symbol ∧ r.1.2.1 = interval))).take
    limit).map rowToKline)

/-- The in-memory klines cache: symbol → interval → list of klines. -/
abbrev KlinesCache := List (String × List (String × List Kline))

/-- Lookup self.klines[symbol][interval]. -/
def cache_lookup (cache : KlinesCache) (symbol interval : String) : Option (List Kline) :=
  match alookup symbol cache with
  | some m => alookup interval m
  | none => none

/-- The write-back `if symbol not in self.klines: self.klines[symbol] = {};
self.klines[symbol][interval] = klines`. -/
def cache_set (cache : KlinesCache) (symbol interval : String) (ks : List Kline) :
    KlinesCache :=
  aset symbol (aset interval ks ((alookup symbol cache).getD [])) cache

/-- BinanceWebSocketClient.get_historical_klines: memory first; on a miss
query storage, return None when no rows exist, otherwise write the rows
back into the cache and return them. -/
def get_historical_klines (cache : KlinesCache) (table : List (KlineKey × KlineVals))
    (symbol interval : String) (limit : Nat) : Option (List Kline) × KlinesCache :=
  match cache_lookup cache symbol interval with
  | some ks => (some ks, cache)
  | none =>
    let rows := query_klines table symbol interval limit
    if rows.isEmpty then (none, cache)
    else (some rows, cache_set cache symbol interval rows)

/-! ## Lemmas about the retry loop -/

/-- When every attempt hits the lock, the loop runs all its remaining
iterations, sleeping the exponential backoff before each retry, and ends
by re-raising the contention error. -/
theorem execLoop_allLocked (f : Fetch) (c : Bool) (k : Int) :
    ∀ (r a : Nat), (a : Int) + r = k → 1 ≤ r →
      execLoop (fun _ => AttemptOutcome.locked) f c k a r =
        { attempts := r,
          delays := (List.range' a (r - 1)).map (fun i => 100 * 2 ^ i),
          commits := 0,
          result := Except.error DBError.contention } := by
  intro r
  induction r with
  | zero => intro a _ h1; omega
  | succ n ih =>
    intro a hk _
    cases n with
    | zero =>
      have hcond : ¬ ((a : Int) < k - 1) := by omega
      simp only [execLoop, hcond, if_false]
      rfl
    | succ m =>
      have hcond : (a : Int) < k - 1 := by omega
      have hrec := ih (a + 1) (by push_cast; omega) (by omega)
      have hstep :
          execLoop (fun _ => AttemptOutcome.locked) f c k a (m + 1 + 1) =
            if (a : Int) < k - 1 then
              { attempts :=
                  (execLoop (fun _ => AttemptOutcome.locked) f c k (a + 1) (m + 1)).attempts + 1,
                delays :=
                  100 * 2 ^ a ::
                    (execLoop (fun _ => AttemptOutcome.locked) f c k (a + 1) (m + 1)).delays,
                commits :=
                  (execLoop (fun _ => AttemptOutcome.locked) f c k (a + 1) (m + 1)).commits,
                result :=
                  (execLoop (fun _ => AttemptOutcome.locked) f c k (a + 1) (m + 1)).result }
            else { attempts := 1, delays := [], commits := 0,
                   result := Except.error DBError.contention } := rfl
      have hr : (List.range' a (m + 1 + 1 - 1)).map (fun i => 100 * 2 ^ i) =
          100 * 2 ^ a :: (List.range' (a + 1) (m + 1 - 1)).map (fun i => 100 * 2 ^ i) := by
        have h2 : m + 1 + 1 - 1 = (m + 1 - 1) + 1 := by omega
        rw [h2, List.range'_succ]
        rfl
      rw [hstep, if_pos hcond, hrec, hr]

/-- The loop never makes more attempts than it has iterations. -/
theorem execLoop_attempts_le (oracle : Nat → AttemptOutcome) (f : Fetch) (c : Bool)
    (k : Int) : ∀ (r a : Nat), (execLoop oracle f c k a r).attempts ≤ r := by
  intro r
  induction r with
  | zero => intro a; simp [execLoop]
  | succ n ih =>
    intro a
    simp only [execLoop]
    cases oracle a with
    | success => simp
    | failure => simp
    | locked =>
      by_cases hcond : (a : Int) < k - 1
      · simp only [hcond, if_true]
        exact Nat.succ_le_succ (ih (a + 1))
      · simp [hcond]

/-- Claim C2: when every attempt fails with the lock-contention error,
execute_query with max_retries = k ≥ 1 makes exactly k attempts, sleeps
100 ms * 2 ^ attempt before each retry — strictly increasing delays —
and finally re-raises the contention error; EnhancedDatabaseManager's
execute_query behaves identically. -/
theorem execute_query_contention_retry_bound (f : Fetch) (c : Bool) (k : Int)
    (hk : 1 ≤ k) :
    execute_query (fun _ => AttemptOutcome.locked) f c k =
      { attempts := k.toNat,
        delays := (List.range (k.toNat - 1)).map (fun i => 100 * 2 ^ i),
        commits := 0,
        result := Except.error DBError.contention } ∧
    ((List.range (k.toNat - 1)).map (fun i => 100 * 2 ^ i)).Pairwise (· < ·) ∧
    executeQueryEnhanced (fun _ => AttemptOutcome.locked) f c k =
      execute_query (fun _ => AttemptOutcome.locked) f c k := by
  refine ⟨?_, ?_, rfl⟩
  · unfold execute_query
    rw [execLoop_allLocked f c k k.toNat 0 (by omega) (by omega), List.range_eq_range']
  · refine List.Pairwise.map _ ?_ (List.pairwise_lt_range _)
    intro a b hab
    have h2 : (2 : Nat) ^ a < 2 ^ b := Nat.pow_lt_pow_right (by norm_num) hab
    omega

/-- Witness for C2 at max_retries = 3. -/
theorem execute_query_contention_retry_bound_witness :
    execute_query (fun _ => AttemptOutcome.locked) Fetch.all true 3 =
      { attempts := (3 : Int).toNat,
        delays := (List.range ((3 : Int).toNat - 1)).map (fun i => 100 * 2 ^ i),
        commits := 0,
        result := Except.error DBError.contention } ∧
    ((List.range ((3 : Int).toNat - 1)).map (fun i => 100 * 2 ^ i)).Pairwise (· < ·) ∧
    executeQueryEnhanced (fun _ => AttemptOutcome.locked) Fetch.all true 3 =
      execute_query (fun _ => AttemptOutcome.locked) Fetch.all true 3 :=
  execute_query_contention_retry_bound Fetch.all true 3 (by norm_num)

/-- Claim C10: with max_retries ≤ 0 the loop body of execute_query never
runs — no attempt, no commit, no error — and the function returns None
whatever the fetch mode; likewise for the enhanced manager. -/
theorem execute_query_nonpositive_max_retries (oracle : Nat → AttemptOutcome)
    (f : Fetch) (c : Bool) (k : Int) (hk : k ≤ 0) :
    execute_query oracle f c k =
      { attempts := 0, delays := [], commits := 0, result := Except.ok none } ∧
    executeQueryEnhanced oracle f c k = execute_query oracle f c k := by
  have h0 : k.toNat = 0 := by omega
  constructor
  · unfold execute_query
    rw [h0]
    rfl
  · rfl

/-- Witness for C10 at max_retries = -2. -/
theorem execute_query_nonpositive_max_retries_witness :
    execute_query (fun _ => AttemptOutcome.success) Fetch.one true (-2) =
      { attempts := 0, delays := [], commits := 0, result := Except.ok none } ∧
    executeQueryEnhanced (fun _ => AttemptOutcome.success) Fetch.one true (-2) =
      execute_query (fun _ => AttemptOutcome.success) Fetch.one true (-2) :=
  execute_query_nonpositive_max_retries (fun _ => AttemptOutcome.success) Fetch.one true
    (-2) (by norm_num)

/-- Counterexample to claim C3: with the lock held on every attempt, the
streaming completed-bar write _save_kline makes exactly one attempt — it
is not retried — and reports no failure to its caller. -/
theorem save_kline_unretried_counterexample :
    (save_kline (fun _ => AttemptOutcome.locked)).attempts = 1 ∧
    (save_kline (fun _ => AttemptOutcome.locked)).raised = false :=
  ⟨rfl, rfl⟩

/-- Claim C3 as amended: writes issued through execute_query are retried
under lock contention up to the bounded max_retries attempt count and
surface the contention failure after exhausting it, but the streaming
client's completed-bar write (_save_kline) bypasses that path: it makes a
single attempt and swallows any failure instead of surfacing it. -/
theorem candle_write_retry_policy (oracle oracle2 : Nat → AttemptOutcome) (f : Fetch)
    (c : Bool) (k : Int) (hk : 1 ≤ k) :
    (execute_query oracle f c k).attempts ≤ k.toNat ∧
    (execute_query (fun _ => AttemptOutcome.locked) f c k).attempts = k.toNat ∧
    (execute_query (fun _ => AttemptOutcome.locked) f c k).result =
      Except.error DBError.contention ∧
    (save_kline oracle2).attempts = 1 ∧
    (save_kline oracle2).raised = false := by
  have hall := execLoop_allLocked f c k k.toNat 0 (by omega) (by omega)
  refine ⟨execLoop_attempts_le oracle f c k k.toNat 0, ?_, ?_, ?_, ?_⟩
  · unfold execute_query
    rw [hall]
  · unfold execute_query
    rw [hall]
  · cases h : oracle2 0 <;> simp [save_kline, h]
  · cases h : oracle2 0 <;> simp [save_kline, h]

/-- Witness for the amended C3 at max_retries = 2. -/
theorem candle_write_retry_policy_witness :
    (execute_query (fun _ => AttemptOutcome.success) Fetch.noneF true 2).attempts ≤
      (2 : Int).toNat ∧
    (execute_query (fun _ => AttemptOutcome.locked) Fetch.noneF true 2).attempts =
      (2 : Int).toNat ∧
    (execute_query (fun _ => AttemptOutcome.locked) Fetch.noneF true 2).result =
      Except.error DBError.contention ∧
    (save_kline (fun _ => AttemptOutcome.failure)).attempts = 1 ∧
    (save_kline (fun _ => AttemptOutcome.failure)).raised = false :=
  candle_write_retry_policy (fun _ => AttemptOutcome.success)
    (fun _ => AttemptOutcome.failure) Fetch.noneF true 2 (by norm_num)

/-- INSERT OR IGNORE leaves the table unchanged when a row with the key
already exists. -/
theorem insertOrIgnore_of_present {κ ν : Type} [DecidableEq κ] (t : List (κ × ν))
    (k : κ) (v : ν) (h : rowsForKey t k ≠ []) : insertOrIgnore t k v = t := by
  obtain ⟨r, hr⟩ := List.exists_mem_of_ne_nil _ h
  unfold rowsForKey at hr
  obtain ⟨hmem, hkey⟩ := List.mem_filter.1 hr
  unfold insertOrIgnore
  have hany : t.any (fun r => r.1 = k) = true := List.any_eq_true.2 ⟨r, hmem, hkey⟩
  rw [hany]
  simp

/-- Counterexample to claim C1: on the historical backfill write path the
market_data upsert is INSERT OR IGNORE, so upserting the same
(symbol, 1h, open_time 1000) candle twice — close 10 volume 5, then
close 20 volume 6 — leaves one row holding the FIRST values, not the
latest. -/
theorem backfill_market_data_not_last_write_wins :
    rowsForKey
      ((backfill_write
          (backfill_write ⟨[], []⟩ "BTCUSDT" ⟨1000, 1, 2, 0, 10, 5⟩)
          "BTCUSDT" ⟨1000, 1, 2, 0, 20, 6⟩).market_data)
      ("BTCUSDT", 1000, "1h") = [(("BTCUSDT", 1000, "1h"), ⟨1, 2, 0, 10, 5⟩)] ∧
    (⟨1, 2, 0, 10, 5⟩ : MarketVals) ≠ ⟨1, 2, 0, 20, 6⟩ := by
  constructor
  · rfl
  · decide

/-- Claim C1 as amended: upserting a candle key twice always leaves
exactly one stored row for that key; the streaming write (INSERT OR
REPLACE INTO klines) and the backfill write into kline_data (INSERT OR
REPLACE) keep the latest values, while the backfill write into
market_data uses INSERT OR IGNORE, so there the first write's values are
kept. -/
theorem candle_upsert_one_row (t : List (KlineKey × KlineVals)) (st : BackfillStore)
    (symbol interval : String) (k1 k2 : Kline) (h1 h2 : HistKline)
    (hot : k2.open_time = k1.open_time) (hts : h2.timestamp = h1.timestamp)
    (habsent : rowsForKey st.market_data (symbol, h1.timestamp, "1h") = []) :
    rowsForKey
        (save_kline_write (save_kline_write t symbol interval k1) symbol interval k2)
        (symbol, interval, k1.open_time) =
      [((symbol, interval, k1.open_time),
        ⟨k2.open_price, k2.high_price, k2.low_price, k2.close_price, k2.volume,
          k2.close_time⟩)] ∧
    rowsForKey (backfill_write (backfill_write st symbol h1) symbol h2).kline_data
        (symbol, "1h", h1.timestamp) =
      [((symbol, "1h", h1.timestamp),
        ⟨h2.open_price, h2.high_price, h2.low_price, h2.close_price, h2.volume,
          h1.timestamp + 3600000⟩)] ∧
    rowsForKey (backfill_write (backfill_write st symbol h1) symbol h2).market_data
        (symbol, h1.timestamp, "1h") =
      [((symbol, h1.timestamp, "1h"),
        ⟨h1.open_price, h1.high_price, h1.low_price, h1.close_price, h1.volume⟩)] := by
  refine ⟨?_, ?_, ?_⟩
  · unfold save_kline_write
    rw [hot]
    exact rowsForKey_insertOrReplace _ _ _
  · simp only [backfill_write]
    rw [hts]
    exact rowsForKey_insertOrReplace _ _ _
  · simp only [backfill_write]
    rw [hts]
    rw [insertOrIgnore_of_present _ _ _ (by
      rw [rowsForKey_insertOrIgnore_of_absent st.market_data _ _ habsent]
      simp)]
    exact rowsForKey_insertOrIgnore_of_absent st.market_data _ _ habsent

/-- Witness for the amended C1 on empty tables, key
(ETHUSDT, 1h, open_time 7). -/
theorem candle_upsert_one_row_witness :
    rowsForKey
        (save_kline_write (save_kline_write [] "ETHUSDT" "1h" ⟨7, 1, 2, 0, 3, 4, 8⟩)
          "ETHUSDT" "1h" ⟨7, 1, 2, 0, 30, 40, 8⟩)
        ("ETHUSDT", "1h", (⟨7, 1, 2, 0, 3, 4, 8⟩ : Kline).open_time) =
      [(("ETHUSDT", "1h", (⟨7, 1, 2, 0, 3, 4, 8⟩ : Kline).open_time),
        ⟨1, 2, 0, 30, 40, 8⟩)] ∧
    rowsForKey
        (backfill_write (backfill_write ⟨[], []⟩ "ETHUSDT" ⟨7, 1, 2, 0, 3, 4⟩)
          "ETHUSDT" ⟨7, 1, 2, 0, 30, 40⟩).kline_data
        ("ETHUSDT", "1h", (⟨7, 1, 2, 0, 3, 4⟩ : HistKline).timestamp) =
      [(("ETHUSDT", "1h", (⟨7, 1, 2, 0, 3, 4⟩ : HistKline).timestamp),
        ⟨1, 2, 0, 30, 40, (⟨7, 1, 2, 0, 3, 4⟩ : HistKline).timestamp + 3600000⟩)] ∧
    rowsForKey
        (backfill_write (backfill_write ⟨[], []⟩ "ETHUSDT" ⟨7, 1, 2, 0, 3, 4⟩)
          "ETHUSDT" ⟨7, 1, 2, 0, 30, 40⟩).market_data
        ("ETHUSDT", (⟨7, 1, 2, 0, 3, 4⟩ : HistKline).timestamp, "1h") =
      [(("ETHUSDT", (⟨7, 1, 2, 0, 3, 4⟩ : HistKline).timestamp, "1h"),
        ⟨1, 2, 0, 3, 4⟩)] :=
  candle_upsert_one_row [] ⟨[], []⟩ "ETHUSDT" "1h" ⟨7, 1, 2, 0, 3, 4, 8⟩
    ⟨7, 1, 2, 0, 30, 40, 8⟩ ⟨7, 1, 2, 0, 3, 4⟩ ⟨7, 1, 2, 0, 30, 40⟩ rfl rfl rfl

/-! ## Lemmas about the connection pool -/

theorem alookup_aset_self {α β : Type} [DecidableEq α] (k : α) (v : β)
    (l : List (α × β)) : alookup k (aset k v l) = some v := by
  induction l with
  | nil => simp [aset, alookup]
  | cons p rest ih =>
    obtain ⟨a, b⟩ := p
    by_cases h : a = k
    · simp [aset, h, alookup]
    · simp [aset, h, alookup, ih]


theorem alookup_mem {α β : Type} [DecidableEq α] {k : α} {v : β} :
    ∀ {l : List (α × β)}, alookup k l = some v → (k, v) ∈ l := by
  intro l
  induction l with
  | nil => simp [alookup]
  | cons p rest ih =>
    obtain ⟨a, b⟩ := p
    intro hl
    by_cases h : a = k
    · subst h
      have hb : b = v := by simpa [alookup] using hl
      subst hb
      exact List.mem_cons_self _ _
    · have h2 : alookup k rest = some v := by simpa [alookup, h] using hl
      exact List.mem_cons_of_mem _ (ih h2)

theorem mem_keys_aset {α β : Type} [DecidableEq α] {x k : α} (v : β)
    (l : List (α × β)) :
    x ∈ (aset k v l).map Prod.fst → x = k ∨ x ∈ l.map Prod.fst := by
  induction l with
  | nil => simp [aset]
  | cons p rest ih =>
    obtain ⟨a, b⟩ := p
    intro hm
    by_cases h : a = k
    · subst h
      simp only [aset, if_pos] at hm
      simp only [List.map_cons, List.mem_cons] at hm ⊢
      tauto
    · simp only [aset, h, if_false, List.map_cons, List.mem_cons] at hm ⊢
      rcases hm with rfl | hm2
      · tauto
      · rcases ih hm2 with rfl | hx <;> tauto

theorem mem_aset {α β : Type} [DecidableEq α] {p : α × β} {k : α} (v : β)
    (l : List (α × β)) : p ∈ aset k v l → p = (k, v) ∨ p ∈ l := by
  induction l with
  | nil => simp [aset]
  | cons q rest ih =>
    obtain ⟨a, b⟩ := q
    intro hm
    by_cases h : a = k
    · subst h
      simp only [aset, if_pos, List.mem_cons] at hm ⊢
      tauto
    · simp only [aset, h, if_false, List.mem_cons] at hm ⊢
      rcases hm with rfl | hm2
      · tauto
      · rcases ih hm2 with rfl | hx <;> tauto

theorem nodup_keys_aset {α β : Type} [DecidableEq α] (k : α) (v : β)
    (l : List (α × β)) (h : (l.map Prod.fst).Nodup) :
    ((aset k v l).map Prod.fst).Nodup := by
  induction l with
  | nil => simp [aset]
  | cons p rest ih =>
    obtain ⟨a, b⟩ := p
    simp only [List.map_cons, List.nodup_cons] at h
    by_cases hak : a = k
    · subst hak
      have hset : aset a v ((a, b) :: rest) = (a, v) :: rest := by
        simp [aset]
      rw [hset]
      simp only [List.map_cons, List.nodup_cons]
      exact ⟨h.1, h.2⟩
    · have hset : aset k v ((a, b) :: rest) = (a, b) :: aset k v rest := by
        simp [aset, hak]
      rw [hset]
      simp only [List.map_cons, List.nodup_cons]
      refine ⟨?_, ih h.2⟩
      intro hmem
      rcases mem_keys_aset v rest hmem with rfl | hx
      · exact hak rfl
      · exact h.1 hx

theorem length_filter_key_le_one {α β : Type} [DecidableEq α] (k : α) :
    ∀ (m : List (α × β)), (m.map Prod.fst).Nodup →
      (m.filter (fun q => q.1 = k)).length ≤ 1 := by
  intro m
  induction m with
  | nil => simp
  | cons p rest ih =>
    obtain ⟨a, b⟩ := p
    intro h
    simp only [List.map_cons, List.nodup_cons] at h
    by_cases hak : a = k
    · subst hak
      have hrest : rest.filter (fun q => q.1 = a) = [] := by
        apply List.filter_eq_nil_iff.2
        intro q hq
        simp only [decide_eq_true_eq]
        intro hqa
        exact h.1 (hqa ▸ List.mem_map_of_mem Prod.fst hq)
      have hfil : ((a, b) :: rest).filter (fun q => q.1 = a) = [(a, b)] := by
        simp [List.filter_cons, hrest]
      rw [hfil]
      simp
    · have hfil : ((a, b) :: rest).filter (fun q => q.1 = k) =
          rest.filter (fun q => q.1 = k) := by
        simp [List.filter_cons, hak]
      rw [hfil]
      exact ih h.2

theorem connCount_list_le_one (tid : Nat) (db : String) :
    ∀ (pool : List (Nat × List (String × Nat))),
      (pool.map Prod.fst).Nodup →
      (∀ p ∈ pool, (p.2.map Prod.fst).Nodup) →
      (pool.map
        (fun p => if p.1 = tid then (p.2.filter (fun q => q.1 = db)).length else 0)).sum
        ≤ 1 := by
  intro pool
  induction pool with
  | nil => simp
  | cons p rest ih =>
    obtain ⟨t, m⟩ := p
    intro h1 h2
    simp only [List.map_cons, List.nodup_cons] at h1
    simp only [List.map_cons, List.sum_cons]
    by_cases htid : t = tid
    · subst htid
      have hzero :
          (rest.map
            (fun p =>
              if p.1 = t then (p.2.filter (fun q => q.1 = db)).length else 0)).sum
            = 0 := by
        apply List.sum_eq_zero
        intro x hx
        obtain ⟨q, hq, rfl⟩ := List.mem_map.1 hx
        have hne : q.1 ≠ t := fun he => h1.1 (he ▸ List.mem_map_of_mem Prod.fst hq)
        simp [hne]
      rw [hzero]
      have hlen := length_filter_key_le_one db m (h2 (t, m) (List.mem_cons_self _ _))
      simpa using hlen
    · have hfirst :
          (if ((t, m) : Nat × List (String × Nat)).1 = tid
            then (m.filter (fun q => q.1 = db)).length else 0) = 0 := by
        simp [htid]
      rw [hfirst]
      have hrest := ih h1.2 (fun p hp => h2 p (List.mem_cons_of_mem _ hp))
      omega

/-- In a well-formed pool at most one physical connection exists for any
(thread, database-name) pair. -/
theorem connCount_le_one (st : PoolState) (hwf : PoolWF st) (tid : Nat)
    (db : String) : connCount st tid db ≤ 1 :=
  connCount_list_le_one tid db st.pool hwf.1 hwf.2

/-- get_connection on a cache hit returns the cached handle and leaves
the state unchanged. -/
theorem get_connection_hit (tid : Nat) (db : String) (st : PoolState) (conn : Nat)
    (h : alookup db ((alookup tid st.pool).getD []) = some conn) :
    get_connection tid db st = (conn, st) := by
  unfold get_connection
  rw [h]

/-- get_connection on a cache miss opens the next fresh connection and
caches it under (thread, database-name). -/
theorem get_connection_miss (tid : Nat) (db : String) (st : PoolState)
    (h : alookup db ((alookup tid st.pool).getD []) = none) :
    get_connection tid db st =
      (st.next_conn,
       ⟨aset tid (aset db st.next_conn ((alookup tid st.pool).getD [])) st.pool,
        st.next_conn + 1⟩) := by
  unfold get_connection
  rw [h]

/-- get_connection preserves pool well-formedness. -/
theorem poolWF_get_connection (tid : Nat) (db : String) (st : PoolState)
    (hwf : PoolWF st) : PoolWF (get_connection tid db st).2 := by
  cases h : alookup db ((alookup tid st.pool).getD []) with
  | some conn =>
    rw [get_connection_hit tid db st conn h]
    exact hwf
  | none =>
    rw [get_connection_miss tid db st h]
    refine ⟨nodup_keys_aset _ _ _ hwf.1, ?_⟩
    intro p hp
    rcases mem_aset _ _ hp with rfl | hmem
    · apply nodup_keys_aset
      cases ht : alookup tid st.pool with
      | none => simp
      | some m =>
        simp only [ht, Option.getD_some]
        exact hwf.2 (tid, m) (alookup_mem ht)
    · exact hwf.2 p hmem

/-- A second get_connection for the same (thread, database-name) returns
the same handle and leaves the pool unchanged. -/
theorem get_connection_idem (tid : Nat) (db : String) (st : PoolState) :
    get_connection tid db (get_connection tid db st).2 =
      ((get_connection tid db st).1, (get_connection tid db st).2) := by
  cases h : alookup db ((alookup tid st.pool).getD []) with
  | some conn =>
    rw [get_connection_hit tid db st conn h]
    exact get_connection_hit tid db st conn h
  | none =>
    rw [get_connection_miss tid db st h]
    refine get_connection_hit tid db _ st.next_conn ?_
    show alookup db
        ((alookup tid
          (aset tid (aset db st.next_conn ((alookup tid st.pool).getD [])) st.pool)).getD
          []) = some st.next_conn
    rw [alookup_aset_self, Option.getD_some, alookup_aset_self]

/-- Claim C4: the connection manager keeps at most one physical
connection per (thread, database-name) pair; get_connection returns the
calling thread's cached handle when present and only otherwise opens and
caches a new one, so a repeated call for the same pair returns the same
handle and changes nothing. -/
theorem get_connection_unique_per_pair (tid tid2 : Nat) (db db2 : String)
    (st : PoolState) (hwf : PoolWF st) :
    PoolWF (get_connection tid db st).2 ∧
    connCount (get_connection tid db st).2 tid2 db2 ≤ 1 ∧
    get_connection tid db (get_connection tid db st).2 =
      ((get_connection tid db st).1, (get_connection tid db st).2) :=
  ⟨poolWF_get_connection tid db st hwf,
   connCount_le_one _ (poolWF_get_connection tid db st hwf) tid2 db2,
   get_connection_idem tid db st⟩

/-- Witness for C4: thread 7 asking twice for kline_data starting from
the empty pool. -/
theorem get_connection_unique_per_pair_witness :
    PoolWF (get_connection 7 "kline_data" ⟨[], 0⟩).2 ∧
    connCount (get_connection 7 "kline_data" ⟨[], 0⟩).2 7 "kline_data" ≤ 1 ∧
    get_connection 7 "kline_data" (get_connection 7 "kline_data" ⟨[], 0⟩).2 =
      ((get_connection 7 "kline_data" ⟨[], 0⟩).1,
       (get_connection 7 "kline_data" ⟨[], 0⟩).2) :=
  get_connection_unique_per_pair 7 7 "kline_data" "kline_data" ⟨[], 0⟩
    ⟨by simp, by simp⟩

/-! ## Lemmas about the rolling cache -/

/-- Below the bound an update is a plain append. -/
theorem appendCompleted_of_small (cache : List Kline) (k : Kline)
    (h : cache.length ≤ 99) : appendCompleted cache k = cache ++ [k] := by
  unfold appendCompleted
  have hlen : ¬ 100 < (cache ++ [k]).length := by
    simp only [List.length_append, List.length_singleton]
    omega
  rw [if_neg hlen]

/-- Folding updates over a batch that fits under the bound is a plain
append of the batch. -/
theorem foldl_appendCompleted_small :
    ∀ (l cache : List Kline), cache.length + l.length ≤ 100 →
      List.foldl appendCompleted cache l = cache ++ l := by
  intro l
  induction l with
  | nil => intro cache _; simp
  | cons a as ih =>
    intro cache h
    simp only [List.length_cons] at h
    rw [List.foldl_cons, appendCompleted_of_small cache a (by omega),
      ih (cache ++ [a]) (by simp; omega)]
    simp

/-- Claim C5: the rolling cache never exceeds 100 entries — one update
keeps any cache at or under the bound — and appending 101 completed
candles to the empty cache leaves exactly 100, the oldest (first) one
being the entry evicted. -/
theorem rolling_cache_bound (cache : List Kline) (k : Kline) (l : List Kline)
    (hc : cache.length ≤ 100) (hl : l.length = 101) :
    (appendCompleted cache k).length ≤ 100 ∧
    List.foldl appendCompleted [] l = l.tail ∧
    (List.foldl appendCompleted [] l).length = 100 := by
  have hbound : (appendCompleted cache k).length ≤ 100 := by
    unfold appendCompleted
    by_cases h : 100 < (cache ++ [k]).length
    · rw [if_pos h]
      simp only [List.length_tail, List.length_append, List.length_singleton]
      omega
    · rw [if_neg h]
      simp only [List.length_append, List.length_singleton] at h ⊢
      omega
  have hne : l ≠ [] := by
    intro he
    rw [he] at hl
    simp at hl
  have hsplit := List.dropLast_append_getLast hne
  have hdl : l.dropLast.length = 100 := by
    rw [List.length_dropLast, hl]
  have hfold : List.foldl appendCompleted [] l = l.tail := by
    conv_lhs => rw [← hsplit]
    rw [List.foldl_append,
      foldl_appendCompleted_small l.dropLast [] (by simp [hdl])]
    simp only [List.nil_append, List.foldl_cons, List.foldl_nil]
    unfold appendCompleted
    have hlong : 100 < (l.dropLast ++ [l.getLast hne]).length := by
      simp only [List.length_append, List.length_singleton, hdl]
      omega
    rw [if_pos hlong]
    conv_rhs => rw [← hsplit]
  refine ⟨hbound, hfold, ?_⟩
  rw [hfold, List.length_tail, hl]

/-- Witness for C5: 101 identical candles into the empty cache. -/
theorem rolling_cache_bound_witness :
    (appendCompleted [] ⟨0, 0, 0, 0, 0, 0, 0⟩).length ≤ 100 ∧
    List.foldl appendCompleted [] (List.replicate 101 (⟨0, 0, 0, 0, 0, 0, 0⟩ : Kline)) =
      (List.replicate 101 (⟨0, 0, 0, 0, 0, 0, 0⟩ : Kline)).tail ∧
    (List.foldl appendCompleted []
      (List.replicate 101 (⟨0, 0, 0, 0, 0, 0, 0⟩ : Kline))).length = 100 :=
  rolling_cache_bound [] ⟨0, 0, 0, 0, 0, 0, 0⟩ _ (by simp) (by simp)

/-! ## Lemmas about the backfill loop -/

theorem init_step_processed (f : String → Except Unit (List HistKline)) (acc : InitAcc)
    (s : String) : (init_step f acc s).processed = acc.processed + 1 := rfl

theorem init_step_successful (f : String → Except Unit (List HistKline)) (acc : InitAcc)
    (s : String) :
    (init_step f acc s).successful =
      acc.successful + (if (load_historical_data f s).isEmpty then 0 else 1) := by
  by_cases hs : (load_historical_data f s).isEmpty
  · simp [init_step, process_symbol_enhanced, hs]
  · simp [init_step, process_symbol_enhanced, hs]

theorem init_step_failed (f : String → Except Unit (List HistKline)) (acc : InitAcc)
    (s : String) :
    (init_step f acc s).failed =
      acc.failed + (if (load_historical_data f s).isEmpty then 1 else 0) := by
  by_cases hs : (load_historical_data f s).isEmpty
  · simp [init_step, process_symbol_enhanced, hs]
  · simp [init_step, process_symbol_enhanced, hs]

theorem foldl_init_step (f : String → Except Unit (List HistKline)) :
    ∀ (symbols : List String) (acc : InitAcc),
      (symbols.foldl (init_step f) acc).processed = acc.processed + symbols.length ∧
      (symbols.foldl (init_step f) acc).successful =
        acc.successful +
          (symbols.filter (fun s => !(load_historical_data f s).isEmpty)).length ∧
      (symbols.foldl (init_step f) acc).failed =
        acc.failed +
          (symbols.filter (fun s => (load_historical_data f s).isEmpty)).length := by
  intro symbols
  induction symbols with
  | nil => intro acc; simp
  | cons s ss ih =>
    intro acc
    obtain ⟨ih1, ih2, ih3⟩ := ih (init_step f acc s)
    refine ⟨?_, ?_, ?_⟩
    · rw [List.foldl_cons, ih1, init_step_processed]
      simp only [List.length_cons]
      omega
    · rw [List.foldl_cons, ih2, init_step_successful, List.filter_cons]
      by_cases hs : (load_historical_data f s).isEmpty <;> (simp [hs]; try omega)
    · rw [List.foldl_cons, ih3, init_step_failed, List.filter_cons]
      by_cases hs : (load_historical_data f s).isEmpty <;> (simp [hs]; try omega)

theorem length_filter_split {α : Type} (p : α → Bool) :
    ∀ (l : List α),
      (l.filter (fun a => !(p a))).length + (l.filter p).length = l.length := by
  intro l
  induction l with
  | nil => simp
  | cons a as ih =>
    by_cases h : p a
    · simp only [List.filter_cons, h, Bool.not_true, Bool.false_eq_true, if_false,
        if_pos, List.length_cons]
      omega
    · simp only [List.filter_cons, h, Bool.not_false, if_true, Bool.false_eq_true,
        if_false, List.length_cons]
      omega

theorem filter_length_pos_iff {α : Type} (p : α → Bool) (l : List α) :
    0 < (l.filter p).length ↔ ∃ a ∈ l, p a = true := by
  rw [List.length_pos]
  constructor
  · intro h
    obtain ⟨a, ha⟩ := List.exists_mem_of_ne_nil _ h
    obtain ⟨hm, hp⟩ := List.mem_filter.1 ha
    exact ⟨a, hm, hp⟩
  · rintro ⟨a, hm, hp⟩ hnil
    have := List.filter_eq_nil_iff.1 hnil a hm
    simp [hp] at this

/-- Claim C6: the backfill run processes every symbol — a failing symbol
is counted and skipped, never aborting the batch — the per-symbol success
and failure counts partition the symbol list, and the run's returned
value is truthy exactly when at least one symbol loaded a non-empty
kline set (an all-failure run reports a falsy return value; the model's
total return type shows no exception escapes). -/
theorem backfill_partial_failure (f : String → Except Unit (List HistKline))
    (symbols : List String) (st0 : BackfillStore) :
    (market_data_init_enhanced f symbols st0).processed = symbols.length ∧
    (market_data_init_enhanced f symbols st0).successful +
      (market_data_init_enhanced f symbols st0).failed = symbols.length ∧
    (isTruthy (market_data_init_enhanced f symbols st0).result = true ↔
      ∃ s ∈ symbols, load_historical_data f s ≠ []) := by
  by_cases hempty : symbols.isEmpty
  · have hnil : symbols = [] := List.isEmpty_iff.1 hempty
    subst hnil
    simp [market_data_init_enhanced, isTruthy]
  · unfold market_data_init_enhanced
    rw [if_neg hempty]
    obtain ⟨h1, h2, h3⟩ := foldl_init_step f symbols ⟨0, 0, 0, st0⟩
    refine ⟨by simpa using h1, ?_, ?_⟩
    · have := length_filter_split (fun s => (load_historical_data f s).isEmpty) symbols
      simp only [h2, h3]
      omega
    · simp only [isTruthy, decide_eq_true_eq, h2, Nat.zero_add]
      rw [filter_length_pos_iff]
      constructor
      · rintro ⟨a, hm, hp⟩
        refine ⟨a, hm, ?_⟩
        simpa using hp
      · rintro ⟨a, hm, hp⟩
        refine ⟨a, hm, ?_⟩
        simpa using hp

/-- Counterexample to claim C7: the baseline client's symbol discovery
(BinanceWebSocketClient._get_active_symbols) returns the empty list, not
the non-empty hard-coded fallback, when the symbol-listing call fails. -/
theorem base_discovery_empty_on_failure :
    get_active_symbols_base (fun _ => none) (Except.error ()) = [] ∧
    fallback_symbols ≠ [] := by
  refine ⟨rfl, ?_⟩
  simp [fallback_symbols]

/-- Claim C7 as amended: on a symbol-listing failure the enhanced
client's discovery returns the fixed non-empty 35-entry fallback list,
while the baseline client's discovery returns the empty list; neither
raises. -/
theorem discovery_fallback_behaviour (price_of : String → Option ℚ) (e : Unit) :
    get_active_symbols_enhanced (Except.error e) = fallback_symbols ∧
    fallback_symbols ≠ [] ∧
    get_active_symbols_base price_of (Except.error e) = [] := by
  refine ⟨rfl, ?_, rfl⟩
  simp [fallback_symbols]

/-- Counterexample to claim C8: a single disconnect with running = true
triggers two reconnect attempts — one from the close handler's recursive
_connect_websocket, one from the connection loop's next iteration — not
exactly one. -/
theorem single_disconnect_not_one_reconnect :
    (single_disconnect true).attempts = 2 ∧ (2 : Nat) ≠ 1 := by
  exact ⟨rfl, by decide⟩

/-- Claim C8 as amended: a single disconnect while running = true yields
two reconnect attempts, each preceded by the 5-second cooldown (the close
handler's recursive reconnect plus the connection loop's next iteration);
once running = false a disconnect yields zero reconnect attempts. -/
theorem disconnect_reconnect_behaviour :
    single_disconnect true = { attempts := 2, cooldowns := [5, 5] } ∧
    single_disconnect false = { attempts := 0, cooldowns := [] } :=
  ⟨rfl, rfl⟩

/-! ## Lemmas about the storage query of get_historical_klines -/

theorem mem_insertDescByOpenTime (r : KlineKey × KlineVals) :
    ∀ (l : List (KlineKey × KlineVals)) (x : KlineKey × KlineVals),
      x ∈ insertDescByOpenTime r l → x = r ∨ x ∈ l := by
  intro l
  induction l with
  | nil =>
    intro x hx
    simp only [insertDescByOpenTime, List.mem_singleton] at hx
    tauto
  | cons a as ih =>
    intro x hx
    by_cases h : r.1.2.2 ≤ a.1.2.2
    · rw [show insertDescByOpenTime r (a :: as) = a :: insertDescByOpenTime r as from by
        simp [insertDescByOpenTime, h]] at hx
      rcases List.mem_cons.1 hx with rfl | hm
      · simp
      · rcases ih x hm with rfl | hx2
        · tauto
        · simp [hx2]
    · rw [show insertDescByOpenTime r (a :: as) = r :: a :: as from by
        simp [insertDescByOpenTime, h]] at hx
      rcases List.mem_cons.1 hx with rfl | hm
      · tauto
      · tauto

theorem sorted_insertDescByOpenTime (r : KlineKey × KlineVals)
    (l : List (KlineKey × KlineVals))
    (h : l.Pairwise (fun a b => b.1.2.2 ≤ a.1.2.2)) :
    (insertDescByOpenTime r l).Pairwise (fun a b => b.1.2.2 ≤ a.1.2.2) := by
  induction l with
  | nil => simp [insertDescByOpenTime]
  | cons a as ih =>
    rw [List.pairwise_cons] at h
    obtain ⟨ha, has⟩ := h
    by_cases hle : r.1.2.2 ≤ a.1.2.2
    · rw [show insertDescByOpenTime r (a :: as) = a :: insertDescByOpenTime r as from by
        simp [insertDescByOpenTime, hle]]
      rw [List.pairwise_cons]
      refine ⟨?_, ih has⟩
      intro x hx
      rcases mem_insertDescByOpenTime r as x hx with rfl | hm
      · exact hle
      · exact ha x hm
    · rw [show insertDescByOpenTime r (a :: as) = r :: a :: as from by
        simp [insertDescByOpenTime, hle]]
      rw [List.pairwise_cons]
      constructor
      · intro x hx
        rcases List.mem_cons.1 hx with rfl | hm
        · omega
        · have h1 := ha x hm
          omega
      · exact List.pairwise_cons.2 ⟨ha, has⟩

theorem sorted_sortDescByOpenTime (l : List (KlineKey × KlineVals)) :
    (sortDescByOpenTime l).Pairwise (fun a b => b.1.2.2 ≤ a.1.2.2) := by
  induction l with
  | nil => simp [sortDescByOpenTime]
  | cons a as ih =>
    have hstep : sortDescByOpenTime (a :: as) =
        insertDescByOpenTime a (sortDescByOpenTime as) := rfl
    rw [hstep]
    exact sorted_insertDescByOpenTime a _ ih

/-- The rows returned by the storage query are in open_time-descending
order. -/
theorem query_klines_sorted (t : List (KlineKey × KlineVals)) (symbol interval : String)
    (limit : Nat) :
    (query_klines t symbol interval limit).Pairwise
      (fun a b => b.open_time ≤ a.open_time) := by
  unfold query_klines
  rw [List.pairwise_map]
  exact (List.Pairwise.sublist (List.take_sublist limit _)
    (sorted_sortDescByOpenTime
      (t.filter (fun r => r.1.1 = symbol ∧ r.1.2.1 = interval)))).imp
    (fun h => h)

/-- The storage query returns at most `limit` rows. -/
theorem query_klines_length_le (t : List (KlineKey × KlineVals))
    (symbol interval : String) (limit : Nat) :
    (query_klines t symbol interval limit).length ≤ limit := by
  unfold query_klines
  rw [List.length_map, List.length_take]
  omega

/-- The write-back is visible to the next cache lookup. -/
theorem cache_lookup_cache_set (cache : KlinesCache) (symbol interval : String)
    (ks : List Kline) :
    cache_lookup (cache_set cache symbol interval ks) symbol interval = some ks := by
  unfold cache_lookup cache_set
  rw [alookup_aset_self]
  exact alookup_aset_self _ _ _

/-- The streaming cache update always places the new candle at the end:
arrival order ascending, the reverse of the query's descending order. -/
theorem appendCompleted_getLast? (c : List Kline) (k : Kline) :
    (appendCompleted c k).getLast? = some k := by
  unfold appendCompleted
  by_cases h : 100 < (c ++ [k]).length
  · rw [if_pos h]
    cases c with
    | nil => simp at h
    | cons a as =>
      rw [List.cons_append, List.tail_cons, List.getLast?_concat]
  · rw [if_neg h, List.getLast?_concat]

/-- Claim C9: on a cache miss get_historical_klines returns at most
`limit` candles in open_time-descending (newest-first) order and writes
exactly that descending sequence back into the cache, while the
streaming path appends each new candle at the end of the cached list
(ascending arrival order — the opposite end); when the table holds no
rows for the pair it returns None and leaves the cache untouched. -/
theorem get_historical_klines_miss_desc (cache cache2 : KlinesCache)
    (table table2 : List (KlineKey × KlineVals)) (symbol interval sym2 iv2 : String)
    (limit limit2 : Nat) (c : List Kline) (k : Kline)
    (hmiss : cache_lookup cache symbol interval = none)
    (hmiss2 : cache_lookup cache2 sym2 iv2 = none)
    (hne : query_klines table symbol interval limit ≠ [])
    (hemp : query_klines table2 sym2 iv2 limit2 = []) :
    get_historical_klines cache table symbol interval limit =
      (some (query_klines table symbol interval limit),
       cache_set cache symbol interval (query_klines table symbol interval limit)) ∧
    cache_lookup
        (cache_set cache symbol interval (query_klines table symbol interval limit))
        symbol interval = some (query_klines table symbol interval limit) ∧
    (query_klines table symbol interval limit).length ≤ limit ∧
    (query_klines table symbol interval limit).Pairwise
      (fun a b => b.open_time ≤ a.open_time) ∧
    get_historical_klines cache2 table2 sym2 iv2 limit2 = (none, cache2) ∧
    (appendCompleted c k).getLast? = some k := by
  refine ⟨?_, cache_lookup_cache_set cache symbol interval _,
    query_klines_length_le table symbol interval limit,
    query_klines_sorted table symbol interval limit, ?_,
    appendCompleted_getLast? c k⟩
  · unfold get_historical_klines
    rw [hmiss]
    simp [hne]
  · unfold get_historical_klines
    rw [hmiss2]
    simp [hemp]

/-- Witness for C9: a miss on the empty cache over a two-row table with
limit 1, and a miss over the empty table. -/
theorem get_historical_klines_miss_desc_witness :
    get_historical_klines [] [(("BTCUSDT", "1h", 1), ⟨1, 1, 1, 1, 1, 2⟩),
        (("BTCUSDT", "1h", 5), ⟨2, 2, 2, 2, 2, 6⟩)] "BTCUSDT" "1h" 1 =
      (some (query_klines [(("BTCUSDT", "1h", 1), ⟨1, 1, 1, 1, 1, 2⟩),
          (("BTCUSDT", "1h", 5), ⟨2, 2, 2, 2, 2, 6⟩)] "BTCUSDT" "1h" 1),
       cache_set [] "BTCUSDT" "1h"
         (query_klines [(("BTCUSDT", "1h", 1), ⟨1, 1, 1, 1, 1, 2⟩),
           (("BTCUSDT", "1h", 5), ⟨2, 2, 2, 2, 2, 6⟩)] "BTCUSDT" "1h" 1)) ∧
    cache_lookup
        (cache_set [] "BTCUSDT" "1h"
          (query_klines [(("BTCUSDT", "1h", 1), ⟨1, 1, 1, 1, 1, 2⟩),
            (("BTCUSDT", "1h", 5), ⟨2, 2, 2, 2, 2, 6⟩)] "BTCUSDT" "1h" 1))
        "BTCUSDT" "1h" =
      some (query_klines [(("BTCUSDT", "1h", 1), ⟨1, 1, 1, 1, 1, 2⟩),
        (("BTCUSDT", "1h", 5), ⟨2, 2, 2, 2, 2, 6⟩)] "BTCUSDT" "1h" 1) ∧
    (query_klines [(("BTCUSDT", "1h", 1), ⟨1, 1, 1, 1, 1, 2⟩),
      (("BTCUSDT", "1h", 5), ⟨2, 2, 2, 2, 2, 6⟩)] "BTCUSDT" "1h" 1).length ≤ 1 ∧
    (query_klines [(("BTCUSDT", "1h", 1), ⟨1, 1, 1, 1, 1, 2⟩),
      (("BTCUSDT", "1h", 5), ⟨2, 2, 2, 2, 2, 6⟩)] "BTCUSDT" "1h" 1).Pairwise
      (fun a b => b.open_time ≤ a.open_time) ∧
    get_historical_klines [] [] "ETHUSDT" "1h" 3 = (none, []) ∧
    (appendCompleted [] ⟨0, 0, 0, 0, 0, 0, 0⟩).getLast? =
      some ⟨0, 0, 0, 0, 0, 0, 0⟩ :=
  get_historical_klines_miss_desc [] [] [(("BTCUSDT", "1h", 1), ⟨1, 1, 1, 1, 1, 2⟩),
      (("BTCUSDT", "1h", 5), ⟨2, 2, 2, 2, 2, 6⟩)] [] "BTCUSDT" "1h" "ETHUSDT" "1h"
    1 3 [] ⟨0, 0, 0, 0, 0, 0, 0⟩ rfl rfl (by decide) rfl
